import Mathlib

/-!
Shallow embedding of `main.py` from the voyage_data_emails repository:
classification of email messages against configured CSV document types,
schema resolution, row coercion, and the per-message / per-run drivers.

Python's `re` patterns are modelled by a small regex AST (`Regex`) with a
backtracking prefix matcher (`rmatch`) that mirrors `re.match` semantics:
leftmost match anchored at the start of the subject, trailing text allowed,
alternatives tried left to right, `star` greedy.  Named capture groups
record the text they consumed.
-/

namespace VoyageData

/-- Named captures collected while matching (participating groups only). -/
abbrev Caps := List (String × String)

/-- Regex abstract syntax: the pattern text handed to `re.compile` is
modelled at the AST level. -/
inductive Regex where
  | emp : Regex
  | char : Char → Regex
  | concat : Regex → Regex → Regex
  | alt : Regex → Regex → Regex
  | star : Regex → Regex
  | group : String → Regex → Regex
deriving Repr, DecidableEq

/-- All candidate matches of `r` against a leading segment of `s`, in
backtracking priority order: each element is (captures, remaining input).
Python's `match` takes the head.  A `star` iteration must consume input,
which keeps the search finite without changing the matched language. -/
def rmatch : Regex → List Char → List (Caps × List Char)
  | .emp, s => [([], s)]
  | .char _, [] => []
  | .char c, a :: s => if a = c then [([], s)] else []
  | .concat r1 r2, s =>
      (rmatch r1 s).flatMap fun p =>
        (rmatch r2 p.2).map fun q => (p.1 ++ q.1, q.2)
  | .alt r1 r2, s => rmatch r1 s ++ rmatch r2 s
  | .star r1, s =>
      ((rmatch r1 s).flatMap fun p =>
        if _ : p.2.length < s.length then
          (rmatch (.star r1) p.2).map fun q => (p.1 ++ q.1, q.2)
        else []) ++ [([], s)]
  | .group n r1, s =>
      (rmatch r1 s).map fun p =>
        ((n, String.mk (s.take (s.length - p.2.length))) :: p.1, p.2)
termination_by r s => (sizeOf r, s.length)
decreasing_by
  all_goals simp_wf
  · left; omega
  · left; omega
  · left; omega
  · left; omega
  · left; omega
  · right; omega
  · left; omega

/-- `re.match(pattern, subject)`: the first (highest-priority) way the
pattern matches at the start of the subject, or `none`. -/
def reMatch (r : Regex) (s : String) : Option (Caps × List Char) :=
  (rmatch r s.data).head?

/-- Exact-match relation: `r` matches precisely the character list `s`. -/
inductive RMatches : Regex → List Char → Prop where
  | emp : RMatches .emp []
  | char (c : Char) : RMatches (.char c) [c]
  | concat {r1 r2 s1 s2} : RMatches r1 s1 → RMatches r2 s2 →
      RMatches (.concat r1 r2) (s1 ++ s2)
  | altL {r1 r2 s} : RMatches r1 s → RMatches (.alt r1 r2) s
  | altR {r1 r2 s} : RMatches r2 s → RMatches (.alt r1 r2) s
  | starNil {r} : RMatches (.star r) []
  | starCons {r s1 s2} : RMatches r s1 → s1 ≠ [] → RMatches (.star r) s2 →
      RMatches (.star r) (s1 ++ s2)
  | group {n r s} : RMatches r s → RMatches (.group n r) s

/-- Names of all named groups in a pattern, in textual order. -/
def groupNames : Regex → List String
  | .emp => []
  | .char _ => []
  | .concat a b => groupNames a ++ groupNames b
  | .alt a b => groupNames a ++ groupNames b
  | .star a => groupNames a
  | .group n a => n :: groupNames a

/-- `match_data.groupdict()`: every named group of the pattern, mapped to
the text it consumed, or `none` (Python `None`) when it did not take part
in the match. -/
abbrev Env := List (String × Option String)

def groupdict (r : Regex) (caps : Caps) : Env :=
  (groupNames r).map fun n => (n, caps.lookup n)

/-- Errors raised by `str.format`: `KeyError` for a mapping key that is
absent, `ValueError` for malformed template syntax. -/
inductive FormatError where
  | missingKey : String → FormatError
  | malformed : FormatError
deriving Repr, DecidableEq

/-- Reads a replacement-field name up to the closing brace. -/
def splitField : List Char → Option (List Char × List Char)
  | [] => none
  | c :: cs =>
    if c = '}' then some ([], cs)
    else
      match splitField cs with
      | some (k, r) => some (c :: k, r)
      | none => none

/-- Python `str.strip()`: drop whitespace from both ends. -/
def pyStrip (s : String) : String :=
  String.mk (((s.data.dropWhile Char.isWhitespace).reverse.dropWhile Char.isWhitespace).reverse)

/-- How `str.format` renders a substituted value (`str(None)` is "None"). -/
def strOfOptVal : Option String → String
  | none => "None"
  | some v => v

/-- `template.format(**env)` over the plain replacement fields the
configuration uses: a field between braces is looked up in `env`
(`KeyError` when absent), doubled braces are literals, and stray braces
are a `ValueError`. -/
def formatChars (env : Env) : List Char → Except FormatError (List Char)
  | [] => .ok []
  | '{' :: '{' :: rest => (formatChars env rest).map (fun t => '{' :: t)
  | '}' :: '}' :: rest => (formatChars env rest).map (fun t => '}' :: t)
  | '{' :: rest =>
    match h : splitField rest with
    | none => .error .malformed
    | some (k, r) =>
      match env.lookup (String.mk k) with
      | none => .error (.missingKey (String.mk k))
      | some v => (formatChars env r).map (fun t => (strOfOptVal v).data ++ t)
  | '}' :: _ => .error .malformed
  | c :: rest => (formatChars env rest).map (fun t => c :: t)
termination_by cs => cs.length
decreasing_by
  all_goals simp_wf
  all_goals try omega
  have hlen : ∀ (cs k r : List Char), splitField cs = some (k, r) → r.length < cs.length := by
    intro cs
    induction cs with
    | nil => intro k r hh; simp [splitField] at hh
    | cons c cs ih =>
      intro k r hh
      simp only [splitField] at hh
      split at hh
      · cases hh; simp
      · revert hh
        split
        · intro hh
          cases hh
          have := ih _ _ (by assumption)
          simpa using Nat.lt_succ_of_lt this
        · intro hh; cases hh
  exact Nat.lt_succ_of_lt (hlen _ _ _ h)

def formatTemplate (t : String) (env : Env) : Except FormatError String :=
  (formatChars env t.data).map String.mk

/-- `ValueError`s raised by `datetime.strptime`. -/
inductive ParseError where
  | badDirective : Char → ParseError
  | noMatch : String → String → ParseError
  | unconverted : ParseError
  | badDate : ParseError
deriving Repr, DecidableEq

/-- A `strptime` format directive. -/
inductive Directive where
  | dY : Directive
  | dm : Directive
  | dd : Directive
  | dH : Directive
  | dM : Directive
  | dS : Directive
  | lit : Char → Directive
deriving Repr, DecidableEq

/-- Translate a format string into directives; an unsupported directive is
a `ValueError` ("bad directive"). -/
def toDirectives : List Char → Except ParseError (List Directive)
  | [] => .ok []
  | '%' :: [] => .error (.badDirective '%')
  | '%' :: c :: rest =>
    match (if c = 'Y' then some Directive.dY
           else if c = 'm' then some .dm
           else if c = 'd' then some .dd
           else if c = 'H' then some .dH
           else if c = 'M' then some .dM
           else if c = 'S' then some .dS
           else if c = '%' then some (.lit '%')
           else none) with
    | none => .error (.badDirective c)
    | some d => (toDirectives rest).map (fun ds => d :: ds)
  | c :: rest => (toDirectives rest).map (fun ds => Directive.lit c :: ds)

def digitVal (c : Char) : Nat := c.toNat - '0'.toNat

/-- Two digits whose value lies in `[lo2, hi2]`, else one digit in
`[lo1, hi1]`, mirroring CPython's alternation order (two-digit
alternatives first). -/
def matchNum (lo2 hi2 lo1 hi1 : Nat) : List Char → Option (Nat × List Char)
  | [] => none
  | [c1] =>
    if c1.isDigit && decide (lo1 ≤ digitVal c1 ∧ digitVal c1 ≤ hi1) then
      some (digitVal c1, [])
    else none
  | c1 :: c2 :: rest =>
    if c1.isDigit && c2.isDigit &&
        decide (lo2 ≤ 10 * digitVal c1 + digitVal c2 ∧
                10 * digitVal c1 + digitVal c2 ≤ hi2) then
      some (10 * digitVal c1 + digitVal c2, rest)
    else if c1.isDigit && decide (lo1 ≤ digitVal c1 ∧ digitVal c1 ≤ hi1) then
      some (digitVal c1, c2 :: rest)
    else none

/-- `%Y`: exactly four digits. -/
def matchYear : List Char → Option (Nat × List Char)
  | c1 :: c2 :: c3 :: c4 :: rest =>
    if c1.isDigit && c2.isDigit && c3.isDigit && c4.isDigit then
      some (((digitVal c1 * 10 + digitVal c2) * 10 + digitVal c3) * 10 + digitVal c4,
            rest)
    else none
  | _ => none

structure DateTime where
  year : Nat
  month : Nat
  day : Nat
  hour : Nat
  minute : Nat
  second : Nat
deriving Repr, DecidableEq

/-- `strptime` defaults: 1900-01-01 00:00:00. -/
def dtDefault : DateTime := ⟨1900, 1, 1, 0, 0, 0⟩

def setY (d : DateTime) (v : Nat) : DateTime := ⟨v, d.month, d.day, d.hour, d.minute, d.second⟩
def setMo (d : DateTime) (v : Nat) : DateTime := ⟨d.year, v, d.day, d.hour, d.minute, d.second⟩
def setD (d : DateTime) (v : Nat) : DateTime := ⟨d.year, d.month, v, d.hour, d.minute, d.second⟩
def setH (d : DateTime) (v : Nat) : DateTime := ⟨d.year, d.month, d.day, v, d.minute, d.second⟩
def setMi (d : DateTime) (v : Nat) : DateTime := ⟨d.year, d.month, d.day, d.hour, v, d.second⟩
def setS (d : DateTime) (v : Nat) : DateTime := ⟨d.year, d.month, d.day, d.hour, d.minute, v⟩

/-- Run the directives over the input, accumulating date-time fields. -/
def runDirectives : List Directive → List Char → DateTime → Option (DateTime × List Char)
  | [], cs, acc => some (acc, cs)
  | .dY :: ds, cs, acc =>
    match matchYear cs with
    | none => none
    | some (v, rest) => runDirectives ds rest (setY acc v)
  | .dm :: ds, cs, acc =>
    match matchNum 1 12 1 9 cs with
    | none => none
    | some (v, rest) => runDirectives ds rest (setMo acc v)
  | .dd :: ds, cs, acc =>
    match matchNum 1 31 1 9 cs with
    | none => none
    | some (v, rest) => runDirectives ds rest (setD acc v)
  | .dH :: ds, cs, acc =>
    match matchNum 0 23 0 9 cs with
    | none => none
    | some (v, rest) => runDirectives ds rest (setH acc v)
  | .dM :: ds, cs, acc =>
    match matchNum 0 59 0 9 cs with
    | none => none
    | some (v, rest) => runDirectives ds rest (setMi acc v)
  | .dS :: ds, cs, acc =>
    match matchNum 0 61 0 9 cs with
    | none => none
    | some (v, rest) => runDirectives ds rest (setS acc v)
  | .lit c :: ds, cs, acc =>
    match cs with
    | [] => none
    | a :: rest => if a = c then runDirectives ds rest acc else none

def isLeap (y : Nat) : Bool :=
  (y % 4 = 0 && y % 100 ≠ 0) || y % 400 = 0

def daysInMonth (y m : Nat) : Nat :=
  if m = 2 then (if isLeap y then 29 else 28)
  else if m = 4 ∨ m = 6 ∨ m = 9 ∨ m = 11 then 30
  else 31

/-- `datetime.strptime(data_string, format)`: directive-by-directive match
of the whole input, then the `datetime` constructor's day-of-month
validation. -/
def strptime (dataStr fmt : String) : Except ParseError DateTime :=
  match toDirectives fmt.data with
  | .error e => .error e
  | .ok ds =>
    match runDirectives ds dataStr.data dtDefault with
    | none => .error (.noMatch dataStr fmt)
    | some (d, []) => if d.day ≤ daysInMonth d.year d.month then .ok d else .error .badDate
    | some (_, _ :: _) => .error .unconverted

/-- Per-column settings dictionary (`details` in `main.py`): the optional
keys read by the code, `None` standing for a `KeyError` on access. -/
structure ColumnDetails where
  field : Option String
  type : Option String
  csv_format : Option String
deriving Repr, DecidableEq

/-- `csv_type['check']`: sender and subject matcher, plus the
`subject_regex_compiled` cache entry that `process_message` adds. -/
structure Check where
  fromAddr : String
  subject_regex : List Regex
  subject_regex_compiled : Option Regex
deriving Repr, DecidableEq

/-- `csv_type['save_csv']`: archival settings; `file_name_format` is
optional because a `KeyError` on it is caught. -/
structure SaveCsv where
  file_name_format : Option String
deriving Repr, DecidableEq

/-- One configured CSV document type (an element of `csv_file_types`). -/
structure CsvType where
  check : Check
  save_table_file_name_format : String
  columns : List (String × ColumnDetails)
  save_csv : Option SaveCsv
deriving Repr, DecidableEq

/-- `re.compile(''.join(subject_regex_list))`: joining the configured
pattern parts is concatenation at the AST level. -/
def compileRegex (parts : List Regex) : Regex :=
  parts.foldr Regex.concat .emp

/-- The pattern `process_message` matches with: the cached compiled form
when present, otherwise the freshly compiled pattern. -/
def effectiveRegex (c : Check) : Regex :=
  c.subject_regex_compiled.getD (compileRegex c.subject_regex)

/-- One email message as the core sees it: the already-extracted from
address, the subject, the raw CSV text, and the records the CSV
collaborator yields from that text. -/
structure Message where
  from_address : String
  subject : String
  content : String
  rows : List (List (String × String))
deriving Repr, DecidableEq

/-- A value headed for the database: raw CSV text, or a converted
date-time. -/
inductive Value where
  | str : String → Value
  | dt : DateTime → Value
deriving Repr, DecidableEq

/-- Python-dict insertion: overwrite in place when the key exists,
append otherwise. -/
def dictInsert (m : List (String × Value)) (k : String) (v : Value) :
    List (String × Value) :=
  if m.any (fun p => p.1 = k) then m.map (fun p => if p.1 = k then (k, v) else p)
  else m ++ [(k, v)]

/-- Observable calls on the collaborators, plus pattern-compilation
events (the index is the position of the type in `csv_file_types`). -/
inductive Event where
  | compiled : Nat → Event
  | tableExists : String → Bool → Event
  | createTable : String → List (String × ColumnDetails) → Event
  | saveFile : String → String → Event
  | insertRow : String → List (String × Value) → Event
deriving Repr, DecidableEq

/-- Database state: which tables exist. `create_table` adds a name,
`insert_row` leaves the set unchanged. -/
structure DBState where
  tables : List String
deriving Repr, DecidableEq

/-- Errors escaping `process_message`: a `str.format` error (the spec's
ConfigurationError) or a `strptime` error (the spec's ParseError). -/
inductive RunError where
  | config : FormatError → RunError
  | parse : ParseError → RunError
deriving Repr, DecidableEq

/-- `CSV_FOLDER` from the settings module (its concrete value is
configuration, not part of this repository's source). -/
def CSV_FOLDER : String := "csv"

/-- `os.path.join` for the one use the code makes of it. -/
def pathJoin (a b : String) : String := a ++ "/" ++ b

/-- `VoyageEmailParser.__init__`, archival part: compute
`self.save_file_path`.  Any `KeyError` (missing `save_csv`, missing
`file_name_format`, or a capture name absent from `subject_values`)
is caught and leaves the path `None`; a malformed template
(`ValueError`) is not caught. -/
def computeSavePath (settings : CsvType) (subject_values : Env) :
    Except FormatError (Option String) :=
  match settings.save_csv with
  | none => .ok none
  | some sc =>
    match sc.file_name_format with
    | none => .ok none
    | some fmtStr =>
      match formatTemplate (pyStrip fmtStr) subject_values with
      | .ok name => .ok (some (pathJoin CSV_FOLDER name))
      | .error (.missingKey _) => .ok none
      | .error .malformed => .error .malformed

/-- `VoyageEmailParser.__init__`, column part: `self.csv_columns` as the
list of `[csv_name, field_name, details]` triples, the field name
defaulting to the CSV column name. -/
def csvColumns (settings : CsvType) : List (String × String × ColumnDetails) :=
  settings.columns.map fun p => (p.1, p.2.field.getD p.1, p.2)

/-- One iteration of the loop in `VoyageEmailParser.process_csv_row`:
skip the column (`ok none`) on any caught `KeyError`, convert a datetime
column with `strptime` (whose `ValueError` propagates), pass other
values through as text. -/
def processColumn (csv_row : List (String × String)) :
    String × String × ColumnDetails → Except ParseError (Option (String × Value))
  | (csv_name, field_name, details) =>
    match csv_row.lookup csv_name, details.type with
    | none, _ => .ok none
    | some _, none => .ok none
    | some value, some item_type =>
      if item_type = "datetime" then
        match details.csv_format with
        | none => .ok none
        | some csv_format =>
          match strptime value (pyStrip csv_format) with
          | .error e => .error e
          | .ok d => .ok (some (field_name, .dt d))
      else .ok (some (field_name, .str value))

/-- The `fields` dictionary built by `process_csv_row`, accumulated over
the column triples. -/
def rowFieldsAux (csv_row : List (String × String)) :
    List (String × String × ColumnDetails) → List (String × Value) →
    Except ParseError (List (String × Value))
  | [], fields => .ok fields
  | col :: rest, fields =>
    match processColumn csv_row col with
    | .error e => .error e
    | .ok none => rowFieldsAux csv_row rest fields
    | .ok (some (f, v)) => rowFieldsAux csv_row rest (dictInsert fields f v)

def rowFields (cols : List (String × String × ColumnDetails))
    (csv_row : List (String × String)) : Except ParseError (List (String × Value)) :=
  rowFieldsAux csv_row cols []

/-- The per-row loop of `CSVEmailParser.process_csv_content`: each record
goes through `process_csv_row`, which ends in one `insert_row` call; a
`strptime` error aborts the remaining records. -/
def processRows (table_name : String) (cols : List (String × String × ColumnDetails)) :
    List (List (String × String)) → List Event × Option ParseError
  | [] => ([], none)
  | row :: rest =>
    match rowFields cols row with
    | .error e => ([], some e)
    | .ok fields =>
      let r := processRows table_name cols rest
      (.insertRow table_name fields :: r.1, r.2)

/-- `VoyageEmailParser.process_csv_content`: write the CSV text to the
save file when a path was computed, then process the records. -/
def process_csv_content (savePath : Option String) (content : String)
    (table_name : String) (cols : List (String × String × ColumnDetails))
    (rows : List (List (String × String))) : List Event × Option ParseError :=
  match savePath with
  | none => processRows table_name cols rows
  | some p =>
    let r := processRows table_name cols rows
    (.saveFile p content :: r.1, r.2)

deriving instance DecidableEq for Except

/-- The result of `process_message`: updated database, updated type list
(pattern caches may have been filled), emitted events, and the returned
boolean or the escaping error. -/
structure StepResult where
  db : DBState
  types : List CsvType
  events : List Event
  result : Except RunError Bool
deriving Repr, DecidableEq

/-- The body of `process_message` after a type's subject matched: table
name from the template, ensure the table, build the parser, process the
message content. -/
def handleMatch (db : DBState) (message : Message) (t : CsvType)
    (match_dict : Env) : DBState × List Event × Except RunError Bool :=
  match formatTemplate (pyStrip t.save_table_file_name_format) match_dict with
  | .error e => (db, [], .error (.config e))
  | .ok table_name =>
    let ex := db.tables.contains table_name
    let db1 : DBState := if ex then db else ⟨table_name :: db.tables⟩
    let evs1 : List Event :=
      if ex then [.tableExists table_name ex]
      else [.tableExists table_name ex, .createTable table_name t.columns]
    match computeSavePath t match_dict with
    | .error e => (db1, evs1, .error (.config e))
    | .ok savePath =>
      let r := process_csv_content savePath message.content table_name
        (csvColumns t) message.rows
      match r.2 with
      | some e => (db1, evs1 ++ r.1, .error (.parse e))
      | none => (db1, evs1 ++ r.1, .ok true)

/-- The `for csv_type in csv_file_types` loop of `process_message`; `i`
is the position of the head of the remaining list in the original list
(used to label compilation events). -/
def processTypes (db : DBState) (message : Message) (i : Nat) :
    List CsvType → StepResult
  | [] => ⟨db, [], [], .ok false⟩
  | t :: rest =>
    if message.from_address ≠ t.check.fromAddr then
      let r := processTypes db message (i + 1) rest
      ⟨r.db, t :: r.types, r.events, r.result⟩
    else
      let subject_regex := effectiveRegex t.check
      let t1 : CsvType :=
        ⟨⟨t.check.fromAddr, t.check.subject_regex, some subject_regex⟩,
         t.save_table_file_name_format, t.columns, t.save_csv⟩
      let compEvs : List Event :=
        match t.check.subject_regex_compiled with
        | some _ => []
        | none => [.compiled i]
      match reMatch subject_regex message.subject with
      | none =>
        let r := processTypes db message (i + 1) rest
        ⟨r.db, t1 :: r.types, compEvs ++ r.events, r.result⟩
      | some m =>
        let match_dict := groupdict subject_regex m.1
        let h := handleMatch db message t1 match_dict
        ⟨h.1, t1 :: rest, compEvs ++ h.2.1, h.2.2⟩

/-- `process_message(database, message, csv_file_types)`. -/
def process_message (db : DBState) (message : Message)
    (csv_file_types : List CsvType) : StepResult :=
  processTypes db message 0 csv_file_types

/-- Outcome of the `process_emails` message loop. -/
structure RunResult where
  db : DBState
  types : List CsvType
  events : List Event
  err : Option RunError
deriving Repr, DecidableEq

/-- The message loop of `process_emails`: messages are processed in
order; an escaping error halts the loop (there is no per-message
recovery). -/
def processMessages (db : DBState) (types : List CsvType) :
    List Message → RunResult
  | [] => ⟨db, types, [], none⟩
  | m :: rest =>
    let r := process_message db m types
    match r.result with
    | .error e => ⟨r.db, r.types, r.events, some e⟩
    | .ok _ =>
      let r2 := processMessages r.db r.types rest
      ⟨r2.db, r2.types, r.events ++ r2.events, r2.err⟩

/-- Does this type accept the message: sender equality, then a subject
match with the pattern the code would use. -/
def acceptType (message : Message) (t : CsvType) : Bool :=
  message.from_address == t.check.fromAddr &&
    (reMatch (effectiveRegex t.check) message.subject).isSome

/-- The classifier as a pure function: the first accepting type together
with the groupdict of its match (the selection `process_message` makes). -/
def classify (message : Message) : List CsvType → Option (CsvType × Env)
  | [] => none
  | t :: rest =>
    if message.from_address = t.check.fromAddr then
      match reMatch (effectiveRegex t.check) message.subject with
      | some m => some (t, groupdict (effectiveRegex t.check) m.1)
      | none => classify message rest
    else classify message rest

/-- The skip condition of the row coercer, read off the claim's three
cases: CSV column absent from the record, type metadata absent, or a
datetime column without a format string. -/
def skipColumn (csv_row : List (String × String))
    (col : String × String × ColumnDetails) : Prop :=
  csv_row.lookup col.1 = none ∨ col.2.2.type = none ∨
    (col.2.2.type = some "datetime" ∧ col.2.2.csv_format = none)

instance (csv_row : List (String × String)) (col : String × String × ColumnDetails) :
    Decidable (skipColumn csv_row col) := by
  unfold skipColumn; infer_instance

/-- The fields a record contributes, defaulting to the empty mapping on a
parse error (used only to phrase theorems). -/
def rowFieldsD (cols : List (String × String × ColumnDetails))
    (csv_row : List (String × String)) : List (String × Value) :=
  ((rowFields cols csv_row).toOption).getD []

/-- A type entry after its pattern cache has been filled (what the
classification loop stores back). -/
def fillCache (t : CsvType) : CsvType :=
  ⟨⟨t.check.fromAddr, t.check.subject_regex, some (effectiveRegex t.check)⟩,
   t.save_table_file_name_format, t.columns, t.save_csv⟩

/-- The compilation events one loop step emits for the type at position
`i`: one event when that type's cache was empty, none otherwise. -/
def compileEvents (t : CsvType) (i : Nat) : List Event :=
  match t.check.subject_regex_compiled with
  | some _ => []
  | none => [.compiled i]

/-- The extracted context a type yields on this message, when its pattern
matches the subject. -/
def matchEnv (message : Message) (t : CsvType) : Option Env :=
  (reMatch (effectiveRegex t.check) message.subject).map
    (fun m => groupdict (effectiveRegex t.check) m.1)

/-- A literal-text pattern. -/
def litRe (s : String) : Regex :=
  s.data.foldr (fun c r => .concat (.char c) r) .emp

/-- Concrete instances used by witnesses and counterexamples. -/

def tA1 : CsvType :=
  ⟨⟨"a@x", [litRe "S"], none⟩, "t1", [], none⟩

def tA2 : CsvType :=
  ⟨⟨"a@x", [litRe "S1"], none⟩, "t2", [], none⟩

def mA : Message := ⟨"a@x", "S1", "", []⟩

def mB : Message := ⟨"z@z", "S1", "", []⟩

def colsD : List (String × ColumnDetails) :=
  [("Date", ⟨some "date", some "datetime", some "%Y-%m-%d"⟩),
   ("Speed", ⟨none, some "float", none⟩)]

def tD : CsvType :=
  ⟨⟨"a@x", [litRe "S"], none⟩, "t1", colsD, none⟩

def rowGood : List (String × String) := [("Date", "2024-03-01"), ("Speed", "12.5")]

def rowBad : List (String × String) := [("Date", "not-a-date"), ("Speed", "9")]

def rowW : List (String × String) := [("A", "1")]

def rowW2 : List (String × String) := [("A", "1"), ("C", "2")]

def colW : String × String × ColumnDetails := ("B", "B", ⟨none, some "int", none⟩)

def tBad : CsvType :=
  ⟨⟨"a@b", [litRe "S"], none⟩, "voyage_{voyage_id}", [], none⟩

def tGood : CsvType :=
  ⟨⟨"c@d", [litRe "T"], none⟩, "voyage_7", [("X", ⟨none, some "text", none⟩)], none⟩

def mBad : Message := ⟨"a@b", "S1", "", []⟩

def mGood : Message := ⟨"c@d", "T", "x", [[("X", "v")]]⟩

def tC8 : CsvType :=
  ⟨⟨"a@x", [litRe "S"], none⟩, "t1", colsD, some ⟨some "file_{missing}.csv"⟩⟩

/-- C3: the coerced row omits a column exactly when its `csv_name` is
absent from the record, or its type metadata is absent, or it is a
datetime column with no format string; the omission is silent (`ok`, and
the remaining columns are processed as if the column were not there),
and the outcome depends only on the record's value at `csv_name`, so
extra record columns are irrelevant. -/
theorem claim3_row_coercer_skip (csv_row : List (String × String))
    (col : String × String × ColumnDetails) :
    (processColumn csv_row col = .ok none ↔ skipColumn csv_row col) ∧
    (processColumn csv_row col = .ok none →
      ∀ rest fields,
        rowFieldsAux csv_row (col :: rest) fields = rowFieldsAux csv_row rest fields) ∧
    (∀ csv_row2, csv_row2.lookup col.1 = csv_row.lookup col.1 →
      processColumn csv_row2 col = processColumn csv_row col) := by
  obtain ⟨csv_name, field_name, details⟩ := col
  refine ⟨?_, ?_, ?_⟩
  · cases h1 : csv_row.lookup csv_name with
    | none => simp [processColumn, skipColumn, h1]
    | some v =>
      cases h2 : details.type with
      | none => simp [processColumn, skipColumn, h1, h2]
      | some ty =>
        by_cases hdt : ty = "datetime"
        · subst hdt
          cases h3 : details.csv_format with
          | none => simp [processColumn, skipColumn, h1, h2, h3]
          | some fmt =>
            cases h4 : strptime v (pyStrip fmt) with
            | error e => simp [processColumn, skipColumn, h1, h2, h3, h4]
            | ok d => simp [processColumn, skipColumn, h1, h2, h3, h4]
        · simp [processColumn, skipColumn, h1, h2, hdt]
  · intro h rest fields
    simp [rowFieldsAux, h]
  · intro csv_row2 hl
    simp only [processColumn]
    rw [hl]

/-- C3 witness: a column whose CSV name is missing from the record is
silently skipped, the rest of the row is still processed, and adding an
unrelated record column changes nothing. -/
theorem claim3_row_coercer_skip_witness :
    processColumn rowW colW = .ok none ∧
    rowFieldsAux rowW [colW] [] = rowFieldsAux rowW [] [] ∧
    processColumn rowW2 colW = processColumn rowW colW := by
  have h := claim3_row_coercer_skip rowW colW
  have h1 : processColumn rowW colW = .ok none := h.1.mpr (by decide)
  exact ⟨h1, h.2.1 h1 [] [], h.2.2 rowW2 (by decide)⟩

/-- C4: with format "%Y-%m-%d", "2024-03-01" coerces to 1 March 2024;
text not conforming to the format is a ParseError, which propagates out
of the column coercion, and a record whose coercion fails aborts the
remaining records (the rows after it contribute no events). -/
theorem claim4_datetime_coercion :
    strptime "2024-03-01" "%Y-%m-%d" = .ok ⟨2024, 3, 1, 0, 0, 0⟩ ∧
    strptime "not-a-date" "%Y-%m-%d" = .error (.noMatch "not-a-date" "%Y-%m-%d") ∧
    (∀ (csv_row : List (String × String)) csv_name field_name fd fmt v e,
      csv_row.lookup csv_name = some v →
      strptime v (pyStrip fmt) = .error e →
      processColumn csv_row (csv_name, field_name, ⟨fd, some "datetime", some fmt⟩) =
        .error e) ∧
    (∀ table cols (pre post : List (List (String × String))) bad e,
      rowFields cols bad = .error e →
      processRows table cols (pre ++ bad :: post) =
        processRows table cols (pre ++ [bad])) := by
  refine ⟨by decide, by decide, ?_, ?_⟩
  · intro csv_row csv_name field_name fd fmt v e h1 h2
    simp [processColumn, h1, h2]
  · intro table cols pre post bad e h
    induction pre with
    | nil => simp [processRows, h]
    | cons r pre ih =>
      cases hr : rowFields cols r with
      | error e2 => simp [processRows, hr]
      | ok f => simp [processRows, hr, ih]

/-- C4 witness: a CSV with a good record, then a malformed date record,
then another record: the good record's date is converted, the malformed
one raises, and the trailing record is never reached. -/
theorem claim4_datetime_coercion_witness :
    strptime "2024-03-01" "%Y-%m-%d" = .ok ⟨2024, 3, 1, 0, 0, 0⟩ ∧
    processColumn rowBad ("Date", "date", ⟨some "date", some "datetime", some "%Y-%m-%d"⟩) =
      .error (.noMatch "not-a-date" "%Y-%m-%d") ∧
    processRows "t1" (csvColumns tD) [rowGood, rowBad, rowGood] =
      processRows "t1" (csvColumns tD) [rowGood, rowBad] := by
  have h := claim4_datetime_coercion
  refine ⟨h.1, ?_, ?_⟩
  · exact h.2.2.1 rowBad "Date" "date" (some "date") "%Y-%m-%d" "not-a-date"
      (.noMatch "not-a-date" "%Y-%m-%d") (by decide) (by decide)
  · exact h.2.2.2 "t1" (csvColumns tD) [rowGood] [rowGood] rowBad
      (.noMatch "not-a-date" "%Y-%m-%d") (by decide)

theorem rowFieldsAux_all_skip (csv_row : List (String × String)) :
    ∀ (cols : List (String × String × ColumnDetails)) fields,
      (∀ col ∈ cols, processColumn csv_row col = .ok none) →
      rowFieldsAux csv_row cols fields = .ok fields := by
  intro cols
  induction cols with
  | nil => intro fields _; rfl
  | cons col rest ih =>
    intro fields h
    have hc := h col (by simp)
    simp [rowFieldsAux, hc, ih fields (fun x hx => h x (by simp [hx]))]

/-- C10: every record reaching the row processor ends in exactly one
`insert_row` call: when all records coerce, the event list is exactly one
insert per record in order; and a record all of whose columns are skipped
still yields `insert_row` with the empty field mapping rather than being
dropped. -/
theorem claim10_one_insert_per_record (table : String)
    (cols : List (String × String × ColumnDetails))
    (rows : List (List (String × String))) :
    ((∀ r ∈ rows, ∃ f, rowFields cols r = .ok f) →
      (processRows table cols rows).1 =
        rows.map (fun r => Event.insertRow table (rowFieldsD cols r))) ∧
    (∀ r, (∀ col ∈ cols, processColumn r col = .ok none) →
      rowFields cols r = .ok []) := by
  constructor
  · induction rows with
    | nil => intro _; simp [processRows]
    | cons r rest ih =>
      intro h
      obtain ⟨f, hf⟩ := h r (by simp)
      have hd : rowFieldsD cols r = f := by simp [rowFieldsD, hf, Except.toOption]
      simp [processRows, hf, hd, ih (fun x hx => h x (by simp [hx]))]
  · intro r h
    exact rowFieldsAux_all_skip r cols [] h

/-- C10 witness: a record containing none of the configured columns is
not dropped: it produces a single `insert_row` with the empty mapping. -/
theorem claim10_one_insert_per_record_witness :
    (processRows "t1" (csvColumns tD) [[("Other", "1")]]).1 =
      [.insertRow "t1" []] ∧
    rowFields (csvColumns tD) [("Other", "1")] = .ok [] := by
  have h := claim10_one_insert_per_record "t1" (csvColumns tD) [[("Other", "1")]]
  have h2 : rowFields (csvColumns tD) [("Other", "1")] = .ok [] :=
    h.2 [("Other", "1")] (by decide)
  refine ⟨?_, h2⟩
  have h1 := h.1 (by intro r hr; simp at hr; subst hr; exact ⟨[], h2⟩)
  simpa [rowFieldsD, h2] using h1

/-- C8: when the archival settings are present but the file-name template
key is missing or the template names a capture absent from the subject
values, the constructor silently computes no save path (`ok none`, no
error), and content processing with no save path is exactly the row
processing: no file-save event occurs. -/
theorem claim8_archival_silently_disabled (settings : CsvType) (env : Env)
    (sc : SaveCsv) (hs : settings.save_csv = some sc)
    (hbad : sc.file_name_format = none ∨
      ∃ fmt k, sc.file_name_format = some fmt ∧
        formatTemplate (pyStrip fmt) env = .error (.missingKey k)) :
    computeSavePath settings env = .ok none ∧
    (∀ content table cols rows,
      process_csv_content none content table cols rows = processRows table cols rows) ∧
    (∀ table cols rows p c,
      Event.saveFile p c ∉ (processRows table cols rows).1) := by
  refine ⟨?_, fun _ _ _ _ => rfl, ?_⟩
  · rcases hbad with hnone | ⟨fmt, k, hfmt, herr⟩
    · simp [computeSavePath, hs, hnone]
    · simp [computeSavePath, hs, hfmt, herr]
  · intro table cols rows p c
    induction rows with
    | nil => simp [processRows]
    | cons r rest ih =>
      cases hr : rowFields cols r with
      | error e => simp [processRows, hr]
      | ok f => simp [processRows, hr, ih]

/-- C8 witness: a concrete type whose archival template references the
missing capture "missing": the save path is `none` and processing the
content is plain row processing, with no file written. -/
theorem claim8_archival_silently_disabled_witness :
    computeSavePath tC8 [] = .ok none ∧
    process_csv_content none "x" "t1" (csvColumns tC8) [rowGood] =
      processRows "t1" (csvColumns tC8) [rowGood] ∧
    (∀ p c, Event.saveFile p c ∉ (processRows "t1" (csvColumns tC8) [rowGood]).1) := by
  have h := claim8_archival_silently_disabled tC8 [] ⟨some "file_{missing}.csv"⟩
    (by rfl)
    (Or.inr ⟨"file_{missing}.csv", "missing", rfl,
      by simp [pyStrip, formatTemplate, formatChars, splitField, Except.map]⟩)
  exact ⟨h.1, h.2.1 "x" "t1" (csvColumns tC8) [rowGood],
    fun p c => h.2.2 "t1" (csvColumns tC8) [rowGood] p c⟩

theorem processTypes_cons_mismatch (db : DBState) (m : Message) (i : Nat)
    (t0 : CsvType) (rest : List CsvType)
    (hfrom : m.from_address ≠ t0.check.fromAddr) :
    processTypes db m i (t0 :: rest) =
      ⟨(processTypes db m (i + 1) rest).db,
       t0 :: (processTypes db m (i + 1) rest).types,
       (processTypes db m (i + 1) rest).events,
       (processTypes db m (i + 1) rest).result⟩ := by
  simp [processTypes, hfrom]

theorem processTypes_cons_nomatch (db : DBState) (m : Message) (i : Nat)
    (t0 : CsvType) (rest : List CsvType)
    (hfrom : m.from_address = t0.check.fromAddr)
    (hm : reMatch (effectiveRegex t0.check) m.subject = none) :
    processTypes db m i (t0 :: rest) =
      ⟨(processTypes db m (i + 1) rest).db,
       fillCache t0 :: (processTypes db m (i + 1) rest).types,
       compileEvents t0 i ++ (processTypes db m (i + 1) rest).events,
       (processTypes db m (i + 1) rest).result⟩ := by
  simp only [processTypes, if_neg (by simp [hfrom] : ¬ m.from_address ≠ t0.check.fromAddr), hm]
  rfl

theorem processTypes_cons_match (db : DBState) (m : Message) (i : Nat)
    (t0 : CsvType) (rest : List CsvType) (md : Caps × List Char)
    (hfrom : m.from_address = t0.check.fromAddr)
    (hm : reMatch (effectiveRegex t0.check) m.subject = some md) :
    processTypes db m i (t0 :: rest) =
      ⟨(handleMatch db m t0 (groupdict (effectiveRegex t0.check) md.1)).1,
       fillCache t0 :: rest,
       compileEvents t0 i ++
         (handleMatch db m t0 (groupdict (effectiveRegex t0.check) md.1)).2.1,
       (handleMatch db m t0 (groupdict (effectiveRegex t0.check) md.1)).2.2⟩ := by
  simp only [processTypes, if_neg (by simp [hfrom] : ¬ m.from_address ≠ t0.check.fromAddr), hm]
  rfl

theorem compileEvents_mem (t : CsvType) (i : Nat) :
    ∀ e ∈ compileEvents t i, e = Event.compiled i := by
  intro e he
  unfold compileEvents at he
  revert he
  cases t.check.subject_regex_compiled <;> simp

theorem handleMatch_result_ne_false (db : DBState) (m : Message) (t : CsvType)
    (env : Env) : (handleMatch db m t env).2.2 ≠ .ok false := by
  unfold handleMatch
  cases hf : formatTemplate (pyStrip t.save_table_file_name_format) env with
  | error e => simp
  | ok tn =>
    cases hs : computeSavePath t env with
    | error e => simp [hs]
    | ok sp =>
      cases hr : (process_csv_content sp m.content tn (csvColumns t) m.rows).2 with
      | none => simp [hs, hr]
      | some e => simp [hs, hr]

theorem processTypes_no_accept (m : Message) :
    ∀ (types : List CsvType) (db : DBState) (i : Nat),
      (∀ t ∈ types, acceptType m t = false) →
      (processTypes db m i types).result = .ok false ∧
      (processTypes db m i types).db = db ∧
      ∀ e ∈ (processTypes db m i types).events, ∃ k, e = Event.compiled k := by
  intro types
  induction types with
  | nil => intro db i _; simp [processTypes]
  | cons t0 rest ih =>
    intro db i h
    have h0 := h t0 (by simp)
    have hrest : ∀ t ∈ rest, acceptType m t = false :=
      fun t ht => h t (by simp [ht])
    have hr := ih db (i + 1) hrest
    by_cases hfrom : m.from_address = t0.check.fromAddr
    · cases hm : reMatch (effectiveRegex t0.check) m.subject with
      | none =>
        rw [processTypes_cons_nomatch db m i t0 rest hfrom hm]
        refine ⟨hr.1, hr.2.1, ?_⟩
        intro e he
        rcases List.mem_append.mp he with h1 | h2
        · exact ⟨i, compileEvents_mem t0 i e h1⟩
        · exact hr.2.2 e h2
      | some md =>
        exfalso
        have : acceptType m t0 = true := by simp [acceptType, hfrom, hm]
        rw [h0] at this
        cases this
    · rw [processTypes_cons_mismatch db m i t0 rest hfrom]
      exact ⟨hr.1, hr.2.1, hr.2.2⟩

theorem processTypes_selected (m : Message) :
    ∀ (types : List CsvType) (db : DBState) (i : Nat) (t : CsvType) (env : Env),
      classify m types = some (t, env) →
      (processTypes db m i types).db = (handleMatch db m t env).1 ∧
      (processTypes db m i types).result = (handleMatch db m t env).2.2 ∧
      ∃ evs, (∀ e ∈ evs, ∃ k, e = Event.compiled k) ∧
        (processTypes db m i types).events = evs ++ (handleMatch db m t env).2.1 := by
  intro types
  induction types with
  | nil => intro db i t env h; simp [classify] at h
  | cons t0 rest ih =>
    intro db i t env h
    by_cases hfrom : m.from_address = t0.check.fromAddr
    · cases hm : reMatch (effectiveRegex t0.check) m.subject with
      | none =>
        have h' : classify m rest = some (t, env) := by
          simpa [classify, hfrom, hm] using h
        have hr := ih db (i + 1) t env h'
        rw [processTypes_cons_nomatch db m i t0 rest hfrom hm]
        refine ⟨hr.1, hr.2.1, ?_⟩
        obtain ⟨evs, hevs, heq⟩ := hr.2.2
        refine ⟨compileEvents t0 i ++ evs, ?_, ?_⟩
        · intro e he
          rcases List.mem_append.mp he with h1 | h2
          · exact ⟨i, compileEvents_mem t0 i e h1⟩
          · exact hevs e h2
        · simp [heq]
      | some md =>
        have ht : t0 = t ∧ groupdict (effectiveRegex t0.check) md.1 = env := by
          have h2 := h
          simp [classify, hfrom, hm] at h2
          exact h2
        obtain ⟨ht0, henv⟩ := ht
        subst ht0; subst henv
        rw [processTypes_cons_match db m i t0 rest md hfrom hm]
        refine ⟨rfl, rfl, compileEvents t0 i, ?_, rfl⟩
        intro e he
        exact ⟨i, compileEvents_mem t0 i e he⟩
    · have h' : classify m rest = some (t, env) := by
        simpa [classify, hfrom] using h
      have hr := ih db (i + 1) t env h'
      rw [processTypes_cons_mismatch db m i t0 rest hfrom]
      exact ⟨hr.1, hr.2.1, hr.2.2⟩

/-- C6: a message no configured type accepts: `process_message` returns
false, raises nothing, leaves the database untouched, and performs no
storage operation (every event is at most a pattern compilation). -/
theorem claim6_no_match_no_storage (db : DBState) (m : Message)
    (types : List CsvType) (h : ∀ t ∈ types, acceptType m t = false) :
    (process_message db m types).result = .ok false ∧
    (process_message db m types).db = db ∧
    ∀ e ∈ (process_message db m types).events, ∃ k, e = Event.compiled k :=
  processTypes_no_accept m types db 0 h

/-- C6 witness: a sender mismatch leaves the message unprocessed with no
storage activity at all. -/
theorem claim6_no_match_no_storage_witness :
    (process_message ⟨[]⟩ mB [tA1]).result = .ok false ∧
    (process_message ⟨[]⟩ mB [tA1]).db = ⟨[]⟩ ∧
    ∀ e ∈ (process_message ⟨[]⟩ mB [tA1]).events, ∃ k, e = Event.compiled k :=
  claim6_no_match_no_storage ⟨[]⟩ mB [tA1] (by decide)

theorem classify_at (m : Message) :
    ∀ (types : List CsvType) (j : Nat) (hj : j < types.length) (env : Env),
      (∀ k, (hk : k < j) → acceptType m (types.get ⟨k, Nat.lt_trans hk hj⟩) = false) →
      m.from_address = (types.get ⟨j, hj⟩).check.fromAddr →
      matchEnv m (types.get ⟨j, hj⟩) = some env →
      classify m types = some (types.get ⟨j, hj⟩, env) := by
  intro types
  induction types with
  | nil => intro j hj; exact absurd hj (by simp)
  | cons t0 rest ih =>
    intro j hj env hmin hfrom hme
    cases j with
    | zero =>
      simp only [List.get] at hfrom hme ⊢
      obtain ⟨md, hmd, henv⟩ : ∃ md,
          reMatch (effectiveRegex t0.check) m.subject = some md ∧
          groupdict (effectiveRegex t0.check) md.1 = env := by
        revert hme
        unfold matchEnv
        cases hm : reMatch (effectiveRegex t0.check) m.subject with
        | none => intro hme; cases hme
        | some md => intro hme; exact ⟨md, rfl, by simpa using hme⟩
      simp [classify, hfrom, hmd, henv]
    | succ j' =>
      have h0 : acceptType m t0 = false := by
        have := hmin 0 (Nat.succ_pos j')
        simpa using this
      have hj' : j' < rest.length := by simpa using Nat.lt_of_succ_lt_succ hj
      have hmin' : ∀ k, (hk : k < j') →
          acceptType m (rest.get ⟨k, Nat.lt_trans hk hj'⟩) = false := by
        intro k hk
        have := hmin (k + 1) (Nat.succ_lt_succ hk)
        simpa using this
      have ihr := ih j' hj' env hmin' (by simpa using hfrom) (by simpa using hme)
      by_cases hfrom0 : m.from_address = t0.check.fromAddr
      · have hm0 : reMatch (effectiveRegex t0.check) m.subject = none := by
          cases hmm : reMatch (effectiveRegex t0.check) m.subject with
          | none => rfl
          | some md =>
            exfalso
            have : acceptType m t0 = true := by simp [acceptType, hfrom0, hmm]
            rw [h0] at this; cases this
        simpa [classify, hfrom0, hm0] using ihr
      · simpa [classify, hfrom0] using ihr

theorem processTypes_types_drop (m : Message) :
    ∀ (types : List CsvType) (db : DBState) (i j : Nat) (hj : j < types.length),
      (∀ k, (hk : k < j) → acceptType m (types.get ⟨k, Nat.lt_trans hk hj⟩) = false) →
      acceptType m (types.get ⟨j, hj⟩) = true →
      (processTypes db m i types).types.drop (j + 1) = types.drop (j + 1) := by
  intro types
  induction types with
  | nil => intro db i j hj; exact absurd hj (by simp)
  | cons t0 rest ih =>
    intro db i j hj hmin hacc
    cases j with
    | zero =>
      simp only [List.get] at hacc
      have hfrom : m.from_address = t0.check.fromAddr := by
        by_contra hne
        simp [acceptType, hne] at hacc
      obtain ⟨md, hmd⟩ : ∃ md,
          reMatch (effectiveRegex t0.check) m.subject = some md := by
        cases hmm : reMatch (effectiveRegex t0.check) m.subject with
        | none => simp [acceptType, hfrom, hmm] at hacc
        | some md => exact ⟨md, rfl⟩
      rw [processTypes_cons_match db m i t0 rest md hfrom hmd]
      simp
    | succ j' =>
      have h0 : acceptType m t0 = false := by
        have := hmin 0 (Nat.succ_pos j')
        simpa using this
      have hj' : j' < rest.length := by simpa using Nat.lt_of_succ_lt_succ hj
      have hmin' : ∀ k, (hk : k < j') →
          acceptType m (rest.get ⟨k, Nat.lt_trans hk hj'⟩) = false := by
        intro k hk
        have := hmin (k + 1) (Nat.succ_lt_succ hk)
        simpa using this
      have ihr := ih db (i + 1) j' hj' hmin' (by simpa using hacc)
      by_cases hfrom0 : m.from_address = t0.check.fromAddr
      · have hm0 : reMatch (effectiveRegex t0.check) m.subject = none := by
          cases hmm : reMatch (effectiveRegex t0.check) m.subject with
          | none => rfl
          | some md =>
            exfalso
            have : acceptType m t0 = true := by simp [acceptType, hfrom0, hmm]
            rw [h0] at this; cases this
        rw [processTypes_cons_nomatch db m i t0 rest hfrom0 hm0]
        simpa using ihr
      · rw [processTypes_cons_mismatch db m i t0 rest hfrom0]
        simpa using ihr

/-- C1: classification selects the first type in the configured list whose
sender equals the message's from-address and whose subject pattern
matches: with every earlier type rejecting the message, `classify` returns
that type with its extracted context, `process_message` does not fall
through to "unhandled", and the types after the selected one are left
completely untouched (no later type is tried). -/
theorem claim1_first_match_wins (m : Message) (types : List CsvType) (j : Nat)
    (hj : j < types.length) (env : Env)
    (hmin : ∀ k, (hk : k < j) → acceptType m (types.get ⟨k, Nat.lt_trans hk hj⟩) = false)
    (hfrom : m.from_address = (types.get ⟨j, hj⟩).check.fromAddr)
    (hme : matchEnv m (types.get ⟨j, hj⟩) = some env) :
    classify m types = some (types.get ⟨j, hj⟩, env) ∧
    ∀ db, (process_message db m types).result ≠ .ok false ∧
      (process_message db m types).types.drop (j + 1) = types.drop (j + 1) := by
  have hcls := classify_at m types j hj env hmin hfrom hme
  refine ⟨hcls, fun db => ⟨?_, ?_⟩⟩
  · have hsel := processTypes_selected m types db 0 _ _ hcls
    rw [show process_message db m types = processTypes db m 0 types from rfl, hsel.2.1]
    exact handleMatch_result_ne_false db m _ env
  · refine processTypes_types_drop m types db 0 j hj hmin ?_
    have : (reMatch (effectiveRegex (types.get ⟨j, hj⟩).check) m.subject).isSome := by
      revert hme
      unfold matchEnv
      cases reMatch (effectiveRegex (types.get ⟨j, hj⟩).check) m.subject with
      | none => intro hme; cases hme
      | some md => intro _; rfl
    simp only [acceptType, Bool.and_eq_true, beq_iff_eq]
    exact ⟨hfrom, this⟩

/-- C1 witness: two configured types both accept the message; the first
one is selected, the result is not "unhandled", and the later type is
untouched. -/
theorem claim1_first_match_wins_witness :
    classify mA [tA1, tA2] = some (tA1, []) ∧
    (process_message ⟨[]⟩ mA [tA1, tA2]).result ≠ .ok false ∧
    (process_message ⟨[]⟩ mA [tA1, tA2]).types.drop 1 = [tA2] := by
  have h := claim1_first_match_wins mA [tA1, tA2] 0 (by simp) []
    (by intro k hk; exact absurd hk (Nat.not_lt_zero k))
    (by rfl)
    (by simp [matchEnv, reMatch, rmatch, effectiveRegex, tA1, mA, litRe,
          compileRegex, groupdict, groupNames])
  exact ⟨h.1, (h.2 ⟨[]⟩).1, by simpa using (h.2 ⟨[]⟩).2⟩

/-- C5 counterexample: the claim's "aborting processing of the current
message only" fails on the code.  A concrete run with a first message
whose table template references the undefined capture `voyage_id`,
followed by a second message that a later type would ingest into table
"voyage_7": the run stops with the configuration error and the second
message is never processed (no insert into "voyage_7" ever happens),
although processing the second message by itself does insert a row. -/
theorem claim5_counterexample :
    (processMessages ⟨[]⟩ [tBad, tGood] [mBad, mGood]).err =
      some (.config (.missingKey "voyage_id")) ∧
    (∀ f, Event.insertRow "voyage_7" f ∉
      (processMessages ⟨[]⟩ [tBad, tGood] [mBad, mGood]).events) ∧
    (∃ f, Event.insertRow "voyage_7" f ∈
      (process_message ⟨[]⟩ mGood [tBad, tGood]).events) := by
  refine ⟨?_, ?_, ?_⟩
  · simp [processMessages, process_message, processTypes, handleMatch, computeSavePath,
      process_csv_content, processRows, rowFields, rowFieldsAux, processColumn,
      formatTemplate, formatChars, splitField, pyStrip, strOfOptVal, Except.map,
      reMatch, rmatch, litRe, compileRegex, effectiveRegex, groupdict, groupNames,
      compileEvents, fillCache, csvColumns, tBad, tGood, mBad, mGood]
  · have hev : (processMessages ⟨[]⟩ [tBad, tGood] [mBad, mGood]).events =
        [.compiled 0] := by
      simp [processMessages, process_message, processTypes, handleMatch, computeSavePath,
        process_csv_content, processRows, rowFields, rowFieldsAux, processColumn,
        formatTemplate, formatChars, splitField, pyStrip, strOfOptVal, Except.map,
        reMatch, rmatch, litRe, compileRegex, effectiveRegex, groupdict, groupNames,
        compileEvents, fillCache, csvColumns, tBad, tGood, mBad, mGood]
    rw [hev]
    simp
  · refine ⟨[("X", .str "v")], ?_⟩
    have hev : (process_message ⟨[]⟩ mGood [tBad, tGood]).events =
        [.compiled 1, .tableExists "voyage_7" false,
         .createTable "voyage_7" [("X", ⟨none, some "text", none⟩)],
         .insertRow "voyage_7" [("X", .str "v")]] := by
      simp [process_message, processTypes, handleMatch, computeSavePath,
        process_csv_content, processRows, rowFields, rowFieldsAux, processColumn,
        formatTemplate, formatChars, splitField, pyStrip, strOfOptVal, Except.map,
        reMatch, rmatch, litRe, compileRegex, effectiveRegex, groupdict, groupNames,
        compileEvents, fillCache, csvColumns, dictInsert, tBad, tGood, mGood]
    rw [hev]
    simp

/-- C5 amended: schema resolution interpolates the table-name template
with the extracted context and fails with the configuration error
(`KeyError`) when the template references a capture absent from that
context; the failure happens before any storage call, so the current
message's processing is aborted — and, because the top-level loop has no
per-message recovery, the error halts the run and the remaining messages
are not processed either. -/
theorem claim5_config_error_propagation (db : DBState) (m : Message)
    (types : List CsvType) (t : CsvType) (env : Env) (k : String)
    (hcls : classify m types = some (t, env))
    (hf : formatTemplate (pyStrip t.save_table_file_name_format) env =
      .error (.missingKey k)) :
    (process_message db m types).result = .error (.config (.missingKey k)) ∧
    (process_message db m types).db = db ∧
    (∀ e ∈ (process_message db m types).events, ∃ i, e = Event.compiled i) ∧
    ∀ rest, processMessages db types (m :: rest) =
      ⟨(process_message db m types).db, (process_message db m types).types,
       (process_message db m types).events, some (.config (.missingKey k))⟩ := by
  have hsel := processTypes_selected m types db 0 t env hcls
  have hpm : process_message db m types = processTypes db m 0 types := rfl
  have hhm : handleMatch db m t env = (db, [], .error (.config (.missingKey k))) := by
    unfold handleMatch
    rw [hf]
  have hres : (process_message db m types).result = .error (.config (.missingKey k)) := by
    rw [hpm, hsel.2.1, hhm]
  refine ⟨hres, ?_, ?_, ?_⟩
  · rw [hpm, hsel.1, hhm]
  · intro e he
    obtain ⟨evs, hevs, heq⟩ := hsel.2.2
    rw [hpm] at he
    rw [heq, hhm] at he
    simp at he
    exact hevs e he
  · intro rest
    simp [processMessages, hres]

/-- C5 amended-claim witness: the first message of the counterexample run
instantiates the amended theorem. -/
theorem claim5_config_error_propagation_witness :
    (process_message ⟨[]⟩ mBad [tBad, tGood]).result =
      .error (.config (.missingKey "voyage_id")) ∧
    (process_message ⟨[]⟩ mBad [tBad, tGood]).db = ⟨[]⟩ ∧
    processMessages ⟨[]⟩ [tBad, tGood] [mBad, mGood] =
      ⟨(process_message ⟨[]⟩ mBad [tBad, tGood]).db,
       (process_message ⟨[]⟩ mBad [tBad, tGood]).types,
       (process_message ⟨[]⟩ mBad [tBad, tGood]).events,
       some (.config (.missingKey "voyage_id"))⟩ := by
  have h := claim5_config_error_propagation ⟨[]⟩ mBad [tBad, tGood] tBad [] "voyage_id"
    (by simp [classify, reMatch, rmatch, effectiveRegex, litRe, compileRegex,
      groupdict, groupNames, tBad, mBad])
    (by simp [formatTemplate, formatChars, splitField, pyStrip, Except.map, tBad])
  exact ⟨h.1, h.2.1, h.2.2.2 [mGood]⟩

theorem processRows_no_create (table : String)
    (cols : List (String × String × ColumnDetails)) :
    ∀ (rows : List (List (String × String))) name ccols,
      Event.createTable name ccols ∉ (processRows table cols rows).1 := by
  intro rows
  induction rows with
  | nil => intro name ccols; simp [processRows]
  | cons r rest ih =>
    intro name ccols
    cases hr : rowFields cols r with
    | error e => simp [processRows, hr]
    | ok f => simp [processRows, hr]; exact ih name ccols

theorem process_csv_content_no_create (savePath : Option String) (content : String)
    (table : String) (cols : List (String × String × ColumnDetails))
    (rows : List (List (String × String))) (name : String)
    (ccols : List (String × ColumnDetails)) :
    Event.createTable name ccols ∉ (process_csv_content savePath content table cols rows).1 := by
  cases savePath with
  | none => simpa [process_csv_content] using processRows_no_create table cols rows name ccols
  | some p =>
    simp [process_csv_content]
    exact processRows_no_create table cols rows name ccols

theorem handleMatch_ok_contains (db : DBState) (m : Message) (t : CsvType)
    (env : Env) (h : (handleMatch db m t env).2.2 = .ok true) :
    ∃ tn, formatTemplate (pyStrip t.save_table_file_name_format) env = .ok tn ∧
      tn ∈ (handleMatch db m t env).1.tables := by
  revert h
  unfold handleMatch
  cases hf : formatTemplate (pyStrip t.save_table_file_name_format) env with
  | error e => intro h; cases h
  | ok tn =>
    cases hs : computeSavePath t env with
    | error e => intro h; simp [hs] at h
    | ok sp =>
      cases hr : (process_csv_content sp m.content tn (csvColumns t) m.rows).2 with
      | some e => intro h; simp [hs, hr] at h
      | none =>
        intro _
        refine ⟨tn, rfl, ?_⟩
        by_cases hmem : tn ∈ db.tables
        · simp [hs, hr, hmem]
        · simp [hs, hr, hmem]

theorem handleMatch_table_present (db : DBState) (m : Message) (t : CsvType)
    (env : Env) (tn : String)
    (hf : formatTemplate (pyStrip t.save_table_file_name_format) env = .ok tn)
    (hex : tn ∈ db.tables) :
    (∀ name ccols, Event.createTable name ccols ∉ (handleMatch db m t env).2.1) ∧
    Event.tableExists tn true ∈ (handleMatch db m t env).2.1 := by
  unfold handleMatch
  rw [hf]
  cases hs : computeSavePath t env with
  | error e =>
    constructor
    · intro name ccols
      simp [hs, hex]
    · simp [hs, hex]
  | ok sp =>
    cases hr : (process_csv_content sp m.content tn (csvColumns t) m.rows).2 with
    | some e =>
      constructor
      · intro name ccols
        simp [hs, hr, hex]
        exact process_csv_content_no_create sp m.content tn (csvColumns t) m.rows name ccols
      · simp [hs, hr, hex]
    | none =>
      constructor
      · intro name ccols
        simp [hs, hr, hex]
        exact process_csv_content_no_create sp m.content tn (csvColumns t) m.rows name ccols
      · simp [hs, hr, hex]

theorem handleMatch_create_only_if_absent (db : DBState) (m : Message)
    (t : CsvType) (env : Env) (name : String) (ccols : List (String × ColumnDetails))
    (h : Event.createTable name ccols ∈ (handleMatch db m t env).2.1) :
    Event.tableExists name false ∈ (handleMatch db m t env).2.1 := by
  revert h
  unfold handleMatch
  cases hf : formatTemplate (pyStrip t.save_table_file_name_format) env with
  | error e => intro h; simp at h
  | ok tn =>
    by_cases hex : tn ∈ db.tables
    · cases hs : computeSavePath t env with
      | error e => intro h; simp [hs, hex] at h
      | ok sp =>
        cases hr : (process_csv_content sp m.content tn (csvColumns t) m.rows).2 with
        | some e =>
          intro h
          simp [hs, hr, hex] at h
          exact absurd h (process_csv_content_no_create sp m.content tn (csvColumns t) m.rows name ccols)
        | none =>
          intro h
          simp [hs, hr, hex] at h
          exact absurd h (process_csv_content_no_create sp m.content tn (csvColumns t) m.rows name ccols)
    · cases hs : computeSavePath t env with
      | error e =>
        intro h
        simp [hs, hex] at h
        simp [hs, hex, h.1]
      | ok sp =>
        cases hr : (process_csv_content sp m.content tn (csvColumns t) m.rows).2 with
        | some e =>
          intro h
          simp [hs, hr, hex] at h
          rcases h with h | h
          · simp [hs, hr, hex, h.1]
          · exact absurd h (process_csv_content_no_create sp m.content tn (csvColumns t) m.rows name ccols)
        | none =>
          intro h
          simp [hs, hr, hex] at h
          rcases h with h | h
          · simp [hs, hr, hex, h.1]
          · exact absurd h (process_csv_content_no_create sp m.content tn (csvColumns t) m.rows name ccols)

theorem effectiveRegex_fillCache (t : CsvType) :
    effectiveRegex (fillCache t).check = effectiveRegex t.check := by
  simp [fillCache, effectiveRegex]

theorem handleMatch_fillCache (db : DBState) (m : Message) (t : CsvType)
    (env : Env) : handleMatch db m (fillCache t) env = handleMatch db m t env := rfl

theorem compileEvents_fillCache (t : CsvType) (j : Nat) :
    compileEvents (fillCache t) j = [] := rfl

theorem processTypes_create_only_if_absent (m : Message) :
    ∀ (types : List CsvType) (db : DBState) (i : Nat) (name : String)
      (ccols : List (String × ColumnDetails)),
      Event.createTable name ccols ∈ (processTypes db m i types).events →
      Event.tableExists name false ∈ (processTypes db m i types).events := by
  intro types
  induction types with
  | nil => intro db i name ccols h; simp [processTypes] at h
  | cons t0 rest ih =>
    intro db i name ccols h
    by_cases hfrom : m.from_address = t0.check.fromAddr
    · cases hm : reMatch (effectiveRegex t0.check) m.subject with
      | none =>
        rw [processTypes_cons_nomatch db m i t0 rest hfrom hm] at h ⊢
        simp only [List.mem_append] at h ⊢
        rcases h with h | h
        · exact absurd (compileEvents_mem t0 i _ h) (by simp)
        · exact Or.inr (ih db (i + 1) name ccols h)
      | some md =>
        rw [processTypes_cons_match db m i t0 rest md hfrom hm] at h ⊢
        simp only [List.mem_append] at h ⊢
        rcases h with h | h
        · exact absurd (compileEvents_mem t0 i _ h) (by simp)
        · exact Or.inr (handleMatch_create_only_if_absent db m t0 _ name ccols h)
    · rw [processTypes_cons_mismatch db m i t0 rest hfrom] at h ⊢
      exact ih db (i + 1) name ccols h

theorem processTypes_second_run (m : Message) :
    ∀ (types : List CsvType) (db : DBState) (i j : Nat),
      (processTypes db m i types).result = .ok true →
      (∀ name ccols, Event.createTable name ccols ∉
        (processTypes (processTypes db m i types).db m j
          (processTypes db m i types).types).events) ∧
      ∃ name, Event.tableExists name true ∈
        (processTypes (processTypes db m i types).db m j
          (processTypes db m i types).types).events := by
  intro types
  induction types with
  | nil => intro db i j h; simp [processTypes] at h
  | cons t0 rest ih =>
    intro db i j h
    by_cases hfrom : m.from_address = t0.check.fromAddr
    · cases hm : reMatch (effectiveRegex t0.check) m.subject with
      | none =>
        rw [processTypes_cons_nomatch db m i t0 rest hfrom hm] at h ⊢
        replace h : (processTypes db m (i + 1) rest).result = .ok true := h
        have hfrom' : m.from_address = (fillCache t0).check.fromAddr := hfrom
        have hm' : reMatch (effectiveRegex (fillCache t0).check) m.subject = none := by
          rw [effectiveRegex_fillCache]; exact hm
        rw [processTypes_cons_nomatch _ m j (fillCache t0) _ hfrom' hm']
        have hr := ih db (i + 1) (j + 1) h
        constructor
        · intro name ccols
          simp only [compileEvents_fillCache, List.nil_append]
          exact hr.1 name ccols
        · obtain ⟨name, hname⟩ := hr.2
          exact ⟨name, by simp only [compileEvents_fillCache, List.nil_append]; exact hname⟩
      | some md =>
        rw [processTypes_cons_match db m i t0 rest md hfrom hm] at h ⊢
        replace h : (handleMatch db m t0 (groupdict (effectiveRegex t0.check) md.1)).2.2 =
            .ok true := h
        obtain ⟨tn, htn, hmem⟩ := handleMatch_ok_contains db m t0 _ h
        have hfrom' : m.from_address = (fillCache t0).check.fromAddr := hfrom
        have hm' : reMatch (effectiveRegex (fillCache t0).check) m.subject = some md := by
          rw [effectiveRegex_fillCache]; exact hm
        rw [processTypes_cons_match _ m j (fillCache t0) _ md hfrom' hm']
        simp only [compileEvents_fillCache, List.nil_append, effectiveRegex_fillCache,
          handleMatch_fillCache]
        have hp := handleMatch_table_present
          (handleMatch db m t0 (groupdict (effectiveRegex t0.check) md.1)).1 m t0
          (groupdict (effectiveRegex t0.check) md.1) tn htn hmem
        exact ⟨hp.1, tn, hp.2⟩
    · rw [processTypes_cons_mismatch db m i t0 rest hfrom] at h ⊢
      replace h : (processTypes db m (i + 1) rest).result = .ok true := h
      rw [processTypes_cons_mismatch _ m j t0 _ hfrom]
      exact ih db (i + 1) (j + 1) h

/-- C2: schema resolution is idempotent.  In any run, `create_table` is
issued only for a table that `table_exists` just reported absent; and
after a message is successfully processed, processing the same message
again (same type, same extracted context) performs no `create_table` at
all and sees `table_exists` answer true. -/
theorem claim2_schema_resolution_idempotent (db : DBState) (m : Message)
    (types : List CsvType)
    (h : (process_message db m types).result = .ok true) :
    (∀ name ccols,
      Event.createTable name ccols ∈ (process_message db m types).events →
      Event.tableExists name false ∈ (process_message db m types).events) ∧
    (∀ name ccols, Event.createTable name ccols ∉
      (process_message (process_message db m types).db m
        (process_message db m types).types).events) ∧
    ∃ name, Event.tableExists name true ∈
      (process_message (process_message db m types).db m
        (process_message db m types).types).events := by
  have hsr := processTypes_second_run m types db 0 0 h
  exact ⟨fun name ccols hc =>
    processTypes_create_only_if_absent m types db 0 name ccols hc, hsr.1, hsr.2⟩

/-- C2 witness: the same message processed twice from an empty database:
the second pass creates nothing and observes the table as existing. -/
theorem claim2_schema_resolution_idempotent_witness :
    (∀ name ccols, Event.createTable name ccols ∉
      (process_message (process_message ⟨[]⟩ mA [tA1]).db mA
        (process_message ⟨[]⟩ mA [tA1]).types).events) ∧
    ∃ name, Event.tableExists name true ∈
      (process_message (process_message ⟨[]⟩ mA [tA1]).db mA
        (process_message ⟨[]⟩ mA [tA1]).types).events := by
  have h := claim2_schema_resolution_idempotent ⟨[]⟩ mA [tA1]
    (by simp [process_message, processTypes, handleMatch, computeSavePath,
      process_csv_content, processRows, rowFields, rowFieldsAux,
      formatTemplate, formatChars, splitField, pyStrip, strOfOptVal, Except.map,
      reMatch, rmatch, litRe, compileRegex, effectiveRegex, groupdict, groupNames,
      compileEvents, fillCache, csvColumns, tA1, mA])
  exact ⟨h.2.1, h.2.2⟩

theorem fillCache_idem (t : CsvType) : fillCache (fillCache t) = fillCache t := by
  simp [fillCache, effectiveRegex]

theorem processRows_events_insert (table : String)
    (cols : List (String × String × ColumnDetails)) :
    ∀ (rows : List (List (String × String))),
      ∀ e ∈ (processRows table cols rows).1, ∃ f, e = Event.insertRow table f := by
  intro rows
  induction rows with
  | nil => intro e he; simp [processRows] at he
  | cons r rest ih =>
    intro e he
    revert he
    cases hr : rowFields cols r with
    | error e2 => simp [processRows, hr]
    | ok f =>
      simp only [processRows, hr, List.mem_cons]
      rintro (rfl | he)
      · exact ⟨f, rfl⟩
      · exact ih e he

theorem handleMatch_no_compiled (db : DBState) (m : Message) (t : CsvType)
    (env : Env) (k : Nat) :
    Event.compiled k ∉ (handleMatch db m t env).2.1 := by
  unfold handleMatch
  cases hf : formatTemplate (pyStrip t.save_table_file_name_format) env with
  | error e => simp
  | ok tn =>
    cases hs : computeSavePath t env with
    | error e =>
      by_cases hex : tn ∈ db.tables <;> simp [hs, hex]
    | ok sp =>
      have hrows : ∀ e2 ∈ (process_csv_content sp m.content tn (csvColumns t) m.rows).1,
          Event.compiled k ≠ e2 := by
        intro e2 he2
        cases sp with
        | none =>
          obtain ⟨f, rfl⟩ := processRows_events_insert tn (csvColumns t) m.rows e2 he2
          simp
        | some p =>
          simp only [process_csv_content, List.mem_cons] at he2
          rcases he2 with rfl | he2
          · simp
          · obtain ⟨f, rfl⟩ := processRows_events_insert tn (csvColumns t) m.rows e2 he2
            simp
      cases hr : (process_csv_content sp m.content tn (csvColumns t) m.rows).2 with
      | some e =>
        by_cases hex : tn ∈ db.tables <;>
          · simp [hs, hr, hex]
            intro hmem
            exact hrows _ hmem rfl
      | none =>
        by_cases hex : tn ∈ db.tables <;>
          · simp [hs, hr, hex]
            intro hmem
            exact hrows _ hmem rfl

theorem processTypes_compiled_event (m : Message) :
    ∀ (types : List CsvType) (db : DBState) (i k : Nat),
      Event.compiled k ∈ (processTypes db m i types).events →
      ∃ j t, k = i + j ∧ types.get? j = some t ∧
        t.check.subject_regex_compiled = none ∧
        ∃ t1, (processTypes db m i types).types.get? j = some t1 ∧
          t1.check.subject_regex_compiled = some (compileRegex t.check.subject_regex) := by
  intro types
  induction types with
  | nil => intro db i k h; simp [processTypes] at h
  | cons t0 rest ih =>
    intro db i k h
    by_cases hfrom : m.from_address = t0.check.fromAddr
    · cases hm : reMatch (effectiveRegex t0.check) m.subject with
      | none =>
        rw [processTypes_cons_nomatch db m i t0 rest hfrom hm] at h ⊢
        simp only [List.mem_append] at h
        rcases h with h | h
        · have he := compileEvents_mem t0 i _ h
          have hc : t0.check.subject_regex_compiled = none := by
            revert h
            unfold compileEvents
            cases hcc : t0.check.subject_regex_compiled <;> simp
          refine ⟨0, t0, ?_, rfl, hc, fillCache t0, rfl, ?_⟩
          · simp only [Event.compiled.injEq] at he
            omega
          · simp [fillCache, effectiveRegex, hc]
        · obtain ⟨j, t, hk, hget, hc, t1, hget1, hc1⟩ := ih db (i + 1) k h
          exact ⟨j + 1, t, by omega, by simpa using hget, hc,
            t1, by simpa using hget1, hc1⟩
      | some md =>
        rw [processTypes_cons_match db m i t0 rest md hfrom hm] at h ⊢
        simp only [List.mem_append] at h
        rcases h with h | h
        · have he := compileEvents_mem t0 i _ h
          have hc : t0.check.subject_regex_compiled = none := by
            revert h
            unfold compileEvents
            cases hcc : t0.check.subject_regex_compiled <;> simp
          refine ⟨0, t0, ?_, rfl, hc, fillCache t0, rfl, ?_⟩
          · simp only [Event.compiled.injEq] at he
            omega
          · simp [fillCache, effectiveRegex, hc]
        · exact absurd h (handleMatch_no_compiled db m t0 _ k)
    · rw [processTypes_cons_mismatch db m i t0 rest hfrom] at h ⊢
      obtain ⟨j, t, hk, hget, hc, t1, hget1, hc1⟩ := ih db (i + 1) k h
      exact ⟨j + 1, t, by omega, by simpa using hget, hc,
        t1, by simpa using hget1, hc1⟩

theorem processTypes_compiled_count (m : Message) :
    ∀ (types : List CsvType) (db : DBState) (i k : Nat),
      ((processTypes db m i types).events.count (Event.compiled k)) ≤ 1 := by
  intro types
  induction types with
  | nil => intro db i k; simp [processTypes]
  | cons t0 rest ih =>
    intro db i k
    by_cases hfrom : m.from_address = t0.check.fromAddr
    · cases hm : reMatch (effectiveRegex t0.check) m.subject with
      | none =>
        rw [processTypes_cons_nomatch db m i t0 rest hfrom hm]
        simp only [List.count_append]
        by_cases hk : k = i
        · have hno : Event.compiled k ∉ (processTypes db m (i + 1) rest).events := by
            intro hmem
            obtain ⟨j, t, hkj, _⟩ := processTypes_compiled_event m rest db (i + 1) k hmem
            omega
          have h0 : (processTypes db m (i + 1) rest).events.count (Event.compiled k) = 0 :=
            List.count_eq_zero.mpr hno
          have hc : (compileEvents t0 i).count (Event.compiled k) ≤ 1 := by
            unfold compileEvents
            cases t0.check.subject_regex_compiled <;>
              simp [List.count_cons] <;> split <;> omega
          omega
        · have hc : (compileEvents t0 i).count (Event.compiled k) = 0 := by
            unfold compileEvents
            cases t0.check.subject_regex_compiled <;> simp [List.count_cons, hk]
          have := ih db (i + 1) k
          omega
      | some md =>
        rw [processTypes_cons_match db m i t0 rest md hfrom hm]
        simp only [List.count_append]
        have h0 : ((handleMatch db m t0
            (groupdict (effectiveRegex t0.check) md.1)).2.1).count (Event.compiled k) = 0 :=
          List.count_eq_zero.mpr (handleMatch_no_compiled db m t0 _ k)
        have hc : (compileEvents t0 i).count (Event.compiled k) ≤ 1 := by
          unfold compileEvents
          cases t0.check.subject_regex_compiled <;>
            simp [List.count_cons] <;> split <;> omega
        omega
    · rw [processTypes_cons_mismatch db m i t0 rest hfrom]
      exact ih db (i + 1) k

theorem processTypes_types_rel (m : Message) :
    ∀ (types : List CsvType) (db : DBState) (i : Nat),
      List.Forall₂ (fun t t1 => t1 = t ∨ t1 = fillCache t) types
        (processTypes db m i types).types := by
  intro types
  induction types with
  | nil => intro db i; simp [processTypes]
  | cons t0 rest ih =>
    intro db i
    by_cases hfrom : m.from_address = t0.check.fromAddr
    · cases hm : reMatch (effectiveRegex t0.check) m.subject with
      | none =>
        rw [processTypes_cons_nomatch db m i t0 rest hfrom hm]
        exact List.Forall₂.cons (Or.inr rfl) (ih db (i + 1))
      | some md =>
        rw [processTypes_cons_match db m i t0 rest md hfrom hm]
        exact List.Forall₂.cons (Or.inr rfl)
          (List.forall₂_same.mpr (fun t _ => Or.inl rfl))
    · rw [processTypes_cons_mismatch db m i t0 rest hfrom]
      exact List.Forall₂.cons (Or.inl rfl) (ih db (i + 1))

theorem forall2_cacheRel_trans : ∀ {l1 l2 l3 : List CsvType},
    List.Forall₂ (fun t t1 => t1 = t ∨ t1 = fillCache t) l1 l2 →
    List.Forall₂ (fun t t1 => t1 = t ∨ t1 = fillCache t) l2 l3 →
    List.Forall₂ (fun t t1 => t1 = t ∨ t1 = fillCache t) l1 l3 := by
  intro l1 l2 l3 h12
  induction h12 generalizing l3 with
  | nil => intro h23; cases h23; constructor
  | cons hab h ih =>
    intro h23
    cases h23 with
    | cons hbc h23 =>
      refine List.Forall₂.cons ?_ (ih h23)
      rcases hab with rfl | rfl <;> rcases hbc with rfl | rfl
      · exact Or.inl rfl
      · exact Or.inr rfl
      · exact Or.inr rfl
      · rw [fillCache_idem]; exact Or.inr rfl

theorem processMessages_types_rel :
    ∀ (msgs : List Message) (types : List CsvType) (db : DBState),
      List.Forall₂ (fun t t1 => t1 = t ∨ t1 = fillCache t) types
        (processMessages db types msgs).types := by
  intro msgs
  induction msgs with
  | nil =>
    intro types db
    simp only [processMessages]
    exact List.forall₂_same.mpr (fun t _ => Or.inl rfl)
  | cons m rest ih =>
    intro types db
    cases hres : (process_message db m types).result with
    | error e =>
      have heq : (processMessages db types (m :: rest)).types =
          (process_message db m types).types := by
        simp [processMessages, hres]
      rw [heq]
      exact processTypes_types_rel m types db 0
    | ok b =>
      have heq : (processMessages db types (m :: rest)).types =
          (processMessages (process_message db m types).db
            (process_message db m types).types rest).types := by
        simp [processMessages, hres]
      rw [heq]
      exact forall2_cacheRel_trans (processTypes_types_rel m types db 0) (ih _ _)

theorem forall2_get? {R : CsvType → CsvType → Prop} :
    ∀ {l1 l2 : List CsvType}, List.Forall₂ R l1 l2 → ∀ (j : Nat) (t : CsvType),
      l1.get? j = some t → ∃ t1, l2.get? j = some t1 ∧ R t t1 := by
  intro l1 l2 h
  induction h with
  | nil => intro j t ht; simp at ht
  | cons hab h ih =>
    intro j t ht
    cases j with
    | zero =>
      simp only [List.get?_cons_zero, Option.some.injEq] at ht
      subst ht
      exact ⟨_, rfl, hab⟩
    | succ j => exact ih j t (by simpa using ht)

theorem cacheRel_some {t t1 : CsvType} (h : t1 = t ∨ t1 = fillCache t) {c : Regex}
    (hc : t.check.subject_regex_compiled = some c) :
    t1.check.subject_regex_compiled = some c := by
  rcases h with rfl | rfl
  · exact hc
  · simp [fillCache, effectiveRegex, hc]

theorem process_message_no_recompile (db : DBState) (m : Message)
    (types : List CsvType) (j : Nat) (t : CsvType) (c : Regex)
    (hget : types.get? j = some t)
    (hc : t.check.subject_regex_compiled = some c) :
    Event.compiled j ∉ (process_message db m types).events := by
  intro hmem
  obtain ⟨j2, t2, hk, hget2, hc2, _⟩ := processTypes_compiled_event m types db 0 j hmem
  have hj : j2 = j := by omega
  subst hj
  rw [hget] at hget2
  simp only [Option.some.injEq] at hget2
  subst hget2
  rw [hc] at hc2
  cases hc2

theorem processMessages_compile_once_aux :
    ∀ (msgs : List Message) (types : List CsvType) (db : DBState) (j : Nat),
      ((∃ t c, types.get? j = some t ∧ t.check.subject_regex_compiled = some c) →
        ((processMessages db types msgs).events.count (Event.compiled j)) = 0 ∧
        ∃ t c, (processMessages db types msgs).types.get? j = some t ∧
          t.check.subject_regex_compiled = some c) ∧
      ((processMessages db types msgs).events.count (Event.compiled j)) ≤ 1 := by
  intro msgs
  induction msgs with
  | nil =>
    intro types db j
    constructor
    · rintro ⟨t, c, hget, hc⟩
      exact ⟨by simp [processMessages], t, c, by simpa [processMessages] using hget, hc⟩
    · simp [processMessages]
  | cons m rest ih =>
    intro types db j
    cases hres : (process_message db m types).result with
    | error e =>
      have heq : processMessages db types (m :: rest) =
          ⟨(process_message db m types).db, (process_message db m types).types,
           (process_message db m types).events, some e⟩ := by
        simp [processMessages, hres]
      rw [heq]
      constructor
      · rintro ⟨t, c, hget, hc⟩
        refine ⟨List.count_eq_zero.mpr
          (process_message_no_recompile db m types j t c hget hc), ?_⟩
        obtain ⟨t1, hget1, hrel⟩ := forall2_get? (processTypes_types_rel m types db 0) j t hget
        exact ⟨t1, c, hget1, cacheRel_some hrel hc⟩
      · exact processTypes_compiled_count m types db 0 j
    | ok b =>
      have heq : processMessages db types (m :: rest) =
          ⟨(processMessages (process_message db m types).db
              (process_message db m types).types rest).db,
           (processMessages (process_message db m types).db
              (process_message db m types).types rest).types,
           (process_message db m types).events ++
             (processMessages (process_message db m types).db
               (process_message db m types).types rest).events,
           (processMessages (process_message db m types).db
              (process_message db m types).types rest).err⟩ := by
        simp [processMessages, hres]
      rw [heq]
      constructor
      · rintro ⟨t, c, hget, hc⟩
        have h1 : (process_message db m types).events.count (Event.compiled j) = 0 :=
          List.count_eq_zero.mpr (process_message_no_recompile db m types j t c hget hc)
        obtain ⟨t1, hget1, hrel⟩ := forall2_get? (processTypes_types_rel m types db 0) j t hget
        have hc1 := cacheRel_some hrel hc
        have ihr := (ih (process_message db m types).types
          (process_message db m types).db j).1 ⟨t1, c, hget1, hc1⟩
        constructor
        · simp [List.count_append, h1, ihr.1]
        · exact ihr.2
      · by_cases hmem : Event.compiled j ∈ (process_message db m types).events
        · obtain ⟨j2, t2, hk, hget2, hc2, t1, hget1, hc1⟩ :=
            processTypes_compiled_event m types db 0 j hmem
          have hj : j2 = j := by omega
          rw [hj] at hget1
          have ihr := (ih (process_message db m types).types
            (process_message db m types).db j).1
            ⟨t1, compileRegex t2.check.subject_regex, hget1, hc1⟩
          have h1 : (process_message db m types).events.count (Event.compiled j) ≤ 1 :=
            processTypes_compiled_count m types db 0 j
          simp only [List.count_append, ihr.1]
          omega
        · have h1 : (process_message db m types).events.count (Event.compiled j) = 0 :=
            List.count_eq_zero.mpr hmem
          have ihr := (ih (process_message db m types).types
            (process_message db m types).db j).2
          simp only [List.count_append, h1]
          omega

theorem forall2_cacheRel_filled : ∀ {l1 l2 : List CsvType},
    List.Forall₂ (fun t t1 => t1 = t ∨ t1 = fillCache t) l1 l2 →
    (∀ t ∈ l1, t.check.subject_regex_compiled = none) →
    List.Forall₂ (fun t t1 =>
      t1.check.subject_regex = t.check.subject_regex ∧
      (t1.check.subject_regex_compiled = none ∨
       t1.check.subject_regex_compiled = some (compileRegex t.check.subject_regex)))
      l1 l2 := by
  intro l1 l2 h
  induction h with
  | nil => intro _; constructor
  | cons hab h ih =>
    intro h0
    refine List.Forall₂.cons ?_ (ih (fun t ht => h0 t (List.mem_cons_of_mem _ ht)))
    have hnone := h0 _ (List.mem_cons_self _ _)
    rcases hab with rfl | rfl
    · exact ⟨rfl, Or.inl hnone⟩
    · exact ⟨rfl, Or.inr (by simp [fillCache, effectiveRegex, hnone])⟩

/-- C7: each type's subject pattern is compiled at most once per process:
over any run the compile event for position `j` occurs at most once; every
cache entry ends up either still empty or holding exactly the compiled
form of that type's own textual pattern; and once a type's entry holds a
compiled form, classifying any further message emits no compile event for
it and leaves the stored compiled form in place (it is reused). -/
theorem claim7_pattern_compiled_once (types : List CsvType) (db : DBState)
    (msgs : List Message)
    (h0 : ∀ t ∈ types, t.check.subject_regex_compiled = none) :
    (∀ j, ((processMessages db types msgs).events.count (Event.compiled j)) ≤ 1) ∧
    List.Forall₂ (fun t t1 =>
      t1.check.subject_regex = t.check.subject_regex ∧
      (t1.check.subject_regex_compiled = none ∨
       t1.check.subject_regex_compiled = some (compileRegex t.check.subject_regex)))
      types (processMessages db types msgs).types ∧
    (∀ (db2 : DBState) (m2 : Message) (types2 : List CsvType) (j : Nat)
      (t2 : CsvType) (c : Regex),
      types2.get? j = some t2 → t2.check.subject_regex_compiled = some c →
      Event.compiled j ∉ (process_message db2 m2 types2).events ∧
      ∃ t3, (process_message db2 m2 types2).types.get? j = some t3 ∧
        t3.check.subject_regex_compiled = some c) := by
  refine ⟨fun j => (processMessages_compile_once_aux msgs types db j).2, ?_, ?_⟩
  · exact forall2_cacheRel_filled (processMessages_types_rel msgs types db) h0
  · intro db2 m2 types2 j t2 c hget hc
    refine ⟨process_message_no_recompile db2 m2 types2 j t2 c hget hc, ?_⟩
    obtain ⟨t1, hget1, hrel⟩ := forall2_get? (processTypes_types_rel m2 types2 db2 0) j t2 hget
    exact ⟨t1, hget1, cacheRel_some hrel hc⟩

/-- C7 witness: a two-type configuration with empty caches, the same
message twice: each pattern is compiled at most once over the run, the
surviving cache entries are the compiled patterns, and a type whose cache
is already filled triggers no compile event. -/
theorem claim7_pattern_compiled_once_witness :
    ((processMessages ⟨[]⟩ [tA1, tA2] [mA, mA]).events.count (Event.compiled 0)) ≤ 1 ∧
    List.Forall₂ (fun t t1 =>
      t1.check.subject_regex = t.check.subject_regex ∧
      (t1.check.subject_regex_compiled = none ∨
       t1.check.subject_regex_compiled = some (compileRegex t.check.subject_regex)))
      [tA1, tA2] (processMessages ⟨[]⟩ [tA1, tA2] [mA, mA]).types ∧
    Event.compiled 0 ∉ (process_message ⟨[]⟩ mA [fillCache tA1]).events := by
  have h := claim7_pattern_compiled_once [tA1, tA2] ⟨[]⟩ [mA, mA] (by decide)
  refine ⟨h.1 0, h.2.1, ?_⟩
  exact (h.2.2 ⟨[]⟩ mA [fillCache tA1] 0 (fillCache tA1)
    (compileRegex tA1.check.subject_regex) rfl
    (by simp [fillCache, effectiveRegex, tA1])).1

theorem rmatch_star_eq (r1 : Regex) (s : List Char) :
    rmatch (.star r1) s =
      ((rmatch r1 s).flatMap fun p =>
        if _ : p.2.length < s.length then
          (rmatch (.star r1) p.2).map fun q => (p.1 ++ q.1, q.2)
        else []) ++ [([], s)] := by
  rw [rmatch.eq_def]

theorem rmatch_sound_star (r1 : Regex)
    (ih : ∀ (cs : List Char) (caps : Caps) (rest : List Char),
      (caps, rest) ∈ rmatch r1 cs → ∃ p, cs = p ++ rest ∧ RMatches r1 p) :
    ∀ (n : Nat) (cs : List Char), cs.length ≤ n → ∀ (caps : Caps) (rest : List Char),
      (caps, rest) ∈ rmatch (.star r1) cs →
      ∃ p, cs = p ++ rest ∧ RMatches (.star r1) p := by
  intro n
  induction n with
  | zero =>
    intro cs hlen caps rest h
    have hcs : cs = [] := by
      cases cs with
      | nil => rfl
      | cons a s => simp at hlen
    subst hcs
    rw [rmatch_star_eq] at h
    simp only [List.mem_append, List.mem_flatMap] at h
    rcases h with ⟨p, _, hp⟩ | h
    · rw [dif_neg (by simp)] at hp
      simp at hp
    · simp only [List.mem_singleton, Prod.mk.injEq] at h
      exact ⟨[], by simp [h.2], RMatches.starNil⟩
  | succ n ihn =>
    intro cs hlen caps rest h
    rw [rmatch_star_eq] at h
    simp only [List.mem_append, List.mem_flatMap] at h
    rcases h with ⟨p, hp, hmem⟩ | h
    · by_cases hc : p.2.length < cs.length
      · rw [dif_pos hc] at hmem
        simp only [List.mem_map] at hmem
        obtain ⟨q, hq, heq⟩ := hmem
        obtain ⟨p1, hcs1, hm1⟩ := ih cs p.1 p.2 hp
        have hlen2 : p.2.length ≤ n := by omega
        obtain ⟨p2, hcs2, hm2⟩ := ihn p.2 hlen2 q.1 q.2 hq
        have hne : p1 ≠ [] := by
          intro hnil
          rw [hnil] at hcs1
          simp at hcs1
          rw [hcs1] at hc
          exact absurd hc (lt_irrefl _)
        refine ⟨p1 ++ p2, ?_, RMatches.starCons hm1 hne hm2⟩
        have hr : rest = q.2 := by
          have := congrArg Prod.snd heq
          simpa using this.symm
        rw [hcs1, hcs2, hr]
        simp
      · rw [dif_neg hc] at hmem
        simp at hmem
    · simp only [List.mem_singleton, Prod.mk.injEq] at h
      exact ⟨[], by simp [h.2], RMatches.starNil⟩

theorem rmatch_sound : ∀ (r : Regex) (cs : List Char) (caps : Caps) (rest : List Char),
    (caps, rest) ∈ rmatch r cs → ∃ p, cs = p ++ rest ∧ RMatches r p := by
  intro r
  induction r with
  | emp =>
    intro cs caps rest h
    simp only [rmatch, List.mem_singleton, Prod.mk.injEq] at h
    exact ⟨[], by simp [h.2], RMatches.emp⟩
  | char c =>
    intro cs caps rest h
    cases cs with
    | nil => simp [rmatch] at h
    | cons a s =>
      simp only [rmatch] at h
      by_cases hac : a = c
      · rw [if_pos hac] at h
        simp only [List.mem_singleton, Prod.mk.injEq] at h
        subst hac
        exact ⟨[a], by simp [h.2], RMatches.char a⟩
      · rw [if_neg hac] at h
        simp at h
  | concat r1 r2 ih1 ih2 =>
    intro cs caps rest h
    simp only [rmatch, List.mem_flatMap, List.mem_map] at h
    obtain ⟨p, hp, q, hq, heq⟩ := h
    obtain ⟨p1, hcs1, hm1⟩ := ih1 cs p.1 p.2 hp
    obtain ⟨p2, hcs2, hm2⟩ := ih2 p.2 q.1 q.2 hq
    have hr : rest = q.2 := by
      have := congrArg Prod.snd heq
      simpa using this.symm
    refine ⟨p1 ++ p2, ?_, RMatches.concat hm1 hm2⟩
    rw [hcs1, hcs2, hr]
    simp
  | alt r1 r2 ih1 ih2 =>
    intro cs caps rest h
    simp only [rmatch, List.mem_append] at h
    rcases h with h | h
    · obtain ⟨p, hcs, hm⟩ := ih1 cs caps rest h
      exact ⟨p, hcs, RMatches.altL hm⟩
    · obtain ⟨p, hcs, hm⟩ := ih2 cs caps rest h
      exact ⟨p, hcs, RMatches.altR hm⟩
  | star r1 ih =>
    intro cs caps rest h
    exact rmatch_sound_star r1 ih cs.length cs le_rfl caps rest h
  | group nm r1 ih =>
    intro cs caps rest h
    simp only [rmatch, List.mem_map] at h
    obtain ⟨p, hp, heq⟩ := h
    obtain ⟨p1, hcs, hm⟩ := ih cs p.1 p.2 hp
    have hr : rest = p.2 := by
      have := congrArg Prod.snd heq
      simpa using this.symm
    exact ⟨p1, by rw [hcs, hr], RMatches.group hm⟩

theorem rmatch_complete : ∀ {r : Regex} {p : List Char}, RMatches r p →
    ∀ (t : List Char), ∃ caps, (caps, t) ∈ rmatch r (p ++ t) := by
  intro r p h
  induction h with
  | emp => intro t; exact ⟨[], by simp [rmatch]⟩
  | char c => intro t; exact ⟨[], by simp [rmatch]⟩
  | @concat r1 r2 s1 s2 h1 h2 ih1 ih2 =>
    intro t
    obtain ⟨c2, hc2⟩ := ih2 t
    obtain ⟨c1, hc1⟩ := ih1 (s2 ++ t)
    refine ⟨c1 ++ c2, ?_⟩
    simp only [rmatch, List.mem_flatMap, List.mem_map]
    exact ⟨(c1, s2 ++ t), by simpa [List.append_assoc] using hc1, (c2, t), hc2, rfl⟩
  | @altL r1 r2 s h ih =>
    intro t
    obtain ⟨c, hc⟩ := ih t
    refine ⟨c, ?_⟩
    simp only [rmatch, List.mem_append]
    exact Or.inl hc
  | @altR r1 r2 s h ih =>
    intro t
    obtain ⟨c, hc⟩ := ih t
    refine ⟨c, ?_⟩
    simp only [rmatch, List.mem_append]
    exact Or.inr hc
  | @starNil r1 =>
    intro t
    refine ⟨[], ?_⟩
    rw [rmatch_star_eq]
    simp only [List.mem_append]
    exact Or.inr (by simp)
  | @starCons r1 s1 s2 h1 hne h2 ih1 ih2 =>
    intro t
    obtain ⟨c2, hc2⟩ := ih2 t
    obtain ⟨c1, hc1⟩ := ih1 (s2 ++ t)
    refine ⟨c1 ++ c2, ?_⟩
    rw [List.append_assoc, rmatch_star_eq]
    simp only [List.mem_append]
    refine Or.inl ?_
    simp only [List.mem_flatMap]
    refine ⟨(c1, s2 ++ t), hc1, ?_⟩
    have hlt : (s2 ++ t).length < (s1 ++ (s2 ++ t)).length := by
      simp only [List.length_append]
      cases s1 with
      | nil => exact absurd rfl hne
      | cons a s => simp
    rw [dif_pos hlt]
    simp only [List.mem_map]
    exact ⟨(c2, t), hc2, rfl⟩
  | @group nm r1 s h ih =>
    intro t
    obtain ⟨c, hc⟩ := ih t
    refine ⟨(nm, String.mk s) :: c, ?_⟩
    simp only [rmatch, List.mem_map]
    refine ⟨(c, t), hc, ?_⟩
    have htake : (s ++ t).take ((s ++ t).length - t.length) = s := by
      have hl : (s ++ t).length - t.length = s.length := by
        simp only [List.length_append]
        omega
      rw [hl]
      exact List.take_left s t
    rw [htake]

/-- C9: subject matching is anchored prefix matching: the matcher used in
classification accepts a subject exactly when the pattern exactly matches
some leading segment of it, trailing text permitted; in particular a
pattern occurring only later in the subject does not accept it. -/
theorem claim9_anchored_prefix_match (r : Regex) (s : String) :
    (reMatch r s).isSome = true ↔
      ∃ p t, s.data = p ++ t ∧ RMatches r p := by
  constructor
  · intro h
    obtain ⟨x, hmem⟩ : ∃ x, x ∈ rmatch r s.data := by
      cases hh : rmatch r s.data with
      | nil =>
        simp only [reMatch, hh] at h
        simp at h
      | cons x l => exact ⟨x, List.mem_cons_self x l⟩
    obtain ⟨p, hp, hm⟩ := rmatch_sound r s.data x.1 x.2 hmem
    exact ⟨p, x.2, hp, hm⟩
  · rintro ⟨p, t, hs, hm⟩
    obtain ⟨caps, hmem⟩ := rmatch_complete hm t
    simp only [reMatch, hs]
    cases hh : rmatch r (p ++ t) with
    | nil =>
      rw [hh] at hmem
      simp at hmem
    | cons x l => simp

end VoyageData
